import Mathlib

/-!
Shallow embedding of the core logic of `src/main.js` (an Obsidian plugin that
resolves the most recent chess.com game of a player and renders it through a
text template), together with theorems settling the frozen claims about it.

JavaScript conventions are modelled explicitly:
* possibly-`undefined` values are `Option`s;
* `x || d` on strings treats `""` (and `undefined`) as falsy;
* `x || 0` on optional numbers is `Option.getD 0`;
* machine numbers that the code uses (epoch seconds, ratings) are `Nat`/`Int`.
-/

namespace LastChess

/-- JS `x || d` where `x : Option String` (both `undefined` and `""` are falsy). -/
def orElseStr (o : Option String) (d : String) : String :=
  match o with
  | none => d
  | some s => if s = "" then d else s

/-- Characters matched by the regex class `\s` (ASCII portion). -/
def isWsChar (c : Char) : Bool :=
  c = ' ' ∨ c = '\t' ∨ c = '\n' ∨ c = '\r' ∨ c = '\x0b' ∨ c = '\x0c'

/-- JS `String.prototype.toLowerCase` (ASCII; usernames and result codes are ASCII). -/
def jsToLower (s : String) : String := String.mk (s.data.map Char.toLower)

/-- JS `String.prototype.trim`: strip leading and trailing whitespace. -/
def jsTrim (s : String) : String :=
  String.mk (((s.data.dropWhile isWsChar).reverse.dropWhile isWsChar).reverse)

/-- JS `normalizeUsername(name) = name?.trim().toLowerCase()` (src/main.js:197). -/
def normalizeUsername (name : Option String) : Option String :=
  name.map (fun s => jsToLower (jsTrim s))

/-- One side of a game (`white` / `black` objects of the chess.com payload). -/
structure Side where
  username : Option String
  result : Option String
  rating : Option Int
  deriving DecidableEq, Repr

/-- A game record as consumed by the code (fields that the core logic reads). -/
structure Game where
  url : Option String
  time_class : Option String
  start_time : Option Nat
  end_time : Option Nat
  rated : Bool
  rules : Option String
  pgn : Option String
  white : Option Side
  black : Option Side
  deriving DecidableEq, Repr

/-- JS `g.end_time || 0` (absent end time treated as 0; 0 itself is falsy). -/
def etD (g : Game) : Nat := g.end_time.getD 0

/-- Which color a side plays. -/
inductive Color | white | black
  deriving DecidableEq, Repr

/-- Outcome categories returned by the classifier. -/
inductive Outcome | win | loss | draw | unknown
  deriving DecidableEq, Repr

/-- `outcomeCategory` (src/main.js:201-210): classify a raw result code.
The input is optional (`result` may be absent); `(result || '')` is `getD ""`. -/
def outcomeCategory (result : Option String) : Outcome :=
  let r := jsToLower (result.getD "")
  if r = "win" then .win
  else if r = "stalemate" ∨ r = "agreed" ∨ r = "repetition" ∨ r = "insufficient"
      ∨ r = "50move" ∨ r = "timevsinsufficient" ∨ r = "draw" then .draw
  else if r = "checkmated" ∨ r = "resigned" ∨ r = "timeout" ∨ r = "abandoned"
      ∨ r = "lose" then .loss
  else .unknown

/-- The classifier table exactly as the specification words it (case-insensitive;
recognized code lists for Draw and Loss; everything else Unknown). -/
def outcomeSpecTable (result : Option String) : Outcome :=
  let r := jsToLower (result.getD "")
  if r = "win" then .win
  else if r ∈ ["stalemate", "agreed", "repetition", "insufficient", "50move",
               "timevsinsufficient", "draw"] then .draw
  else if r ∈ ["checkmated", "resigned", "timeout", "abandoned", "lose"] then .loss
  else .unknown

/-- `pastTenseLabel` (src/main.js:211-219). -/
def pastTenseLabel (cat : Outcome) : String :=
  if cat = .win then "Won"
  else if cat = .loss then "Lost"
  else if cat = .draw then "Drew"
  else ""

/-- The category filter shared by both resolution passes
(`g.time_class?.toLowerCase() === timeClass`, src/main.js:387 and 427): the
stored category is lowercased, the requested string is compared verbatim. -/
def catMatches (g : Game) (timeClass : String) : Bool :=
  (g.time_class.map jsToLower) == some timeClass

/-- One step of the per-archive selection loop of `getLastGameForUser`
(src/main.js:393-397): the current `latest` is replaced when its end time is
falsy, or when `g` has a truthy end time strictly greater than `latest`'s. -/
def stepSrc (latest g : Game) : Game :=
  if etD latest = 0 ∨ (etD g ≠ 0 ∧ etD g > etD latest) then g else latest

/-- The per-archive candidate selection of `getLastGameForUser`
(src/main.js:392-397): `latest` is initialized with the LAST candidate
(`candidates[candidates.length - 1]`) and the loop then scans the whole list
left to right.  Empty candidate set ⇒ none (the `continue` cases). -/
def selectLatest (candidates : List Game) : Option Game :=
  match candidates.getLast? with
  | none => none
  | some init => some (candidates.foldl stepSrc init)

/-- The result of `getLastGameForUser` (src/main.js:409). -/
structure ResolvedGame where
  game : Game
  meColor : Color
  meUsername : String
  deriving DecidableEq, Repr

/-- Archive traversal of `getLastGameForUser` (src/main.js:380-411), over the
months in newest-first order.  `username` is the caller's original string,
`u` its normalized form. -/
def resolveAux (username u : String) (tc : Option String) :
    List (List Game) → Option ResolvedGame
  | [] => none
  | games :: rest =>
    let candidates := match tc with
      | some t => games.filter (fun g => catMatches g t)
      | none => games
    match selectLatest candidates with
    | none => resolveAux username u tc rest
    | some latest =>
      if normalizeUsername (latest.white.bind (·.username)) = some u then
        some ⟨latest, .white, username⟩
      else if normalizeUsername (latest.black.bind (·.username)) = some u then
        some ⟨latest, .black, username⟩
      else resolveAux username u tc rest

/-- `getLastGameForUser` (src/main.js:370-412), with the network fetches
replaced by the already-fetched archive months (in published, oldest-first
order); the loop iterates them from the end, i.e. over `archives.reverse`. -/
def getLastGameForUser (archives : List (List Game)) (username : String)
    (timeClass : Option String) : Option ResolvedGame :=
  let u := jsToLower (jsTrim username)
  if u = "" then none
  else resolveAux username u timeClass archives.reverse

/-- The qualifier predicate of `getPreviousGameForUser` (src/main.js:427):
category matches (required) and end time (0 if absent) strictly below cutoff. -/
def prevQualifies (timeClass : String) (beforeEndTime : Nat) (g : Game) : Bool :=
  catMatches g timeClass && decide (etD g < beforeEndTime)

/-- The per-archive selection of `getPreviousGameForUser` (src/main.js:431-436):
running max over `(end_time || 0)`, starting from `undefined`. -/
def pickPrev (candidates : List Game) : Option Game :=
  candidates.foldl
    (fun latest g =>
      match latest with
      | none => some g
      | some l => if etD g > etD l then some g else latest)
    none

/-- Archive traversal of `getPreviousGameForUser` (src/main.js:424-439). -/
def findPrevAux (timeClass : String) (beforeEndTime : Nat) :
    List (List Game) → Option Game
  | [] => none
  | games :: rest =>
    match pickPrev (games.filter (prevQualifies timeClass beforeEndTime)) with
    | some g => some g
    | none => findPrevAux timeClass beforeEndTime rest

/-- `getPreviousGameForUser` (src/main.js:414-441), network fetches replaced by
the already-fetched archive months in published (oldest-first) order. -/
def getPreviousGameForUser (archives : List (List Game)) (username timeClass : String)
    (beforeEndTime : Nat) : Option Game :=
  if jsToLower (jsTrim username) = "" then none
  else findPrevAux timeClass beforeEndTime archives.reverse

/-- Plain running max over `(end_time || 0)` with a seed, used to analyse both
selection loops. -/
def runMax (b : Game) (l : List Game) : Game :=
  l.foldl (fun latest g => if etD g > etD latest then g else latest) b

/-- Maximum of `(end_time || 0)` over a list of games. -/
def maxEt : List Game → Nat
  | [] => 0
  | g :: t => max (etD g) (maxEt t)

/-- A concrete game: url `u`, category `tc`, end time `et`, fixed sides. -/
def mkGame (u : String) (tc : Option String) (et : Option Nat) (w b : Side) : Game :=
  ⟨some u, tc, none, et, true, some "chess", none, some w, some b⟩

/-- White side "alice" (winner) used by the concrete examples. -/
def aliceWin : Side := ⟨some "alice", some "win", some 1500⟩

/-- Black side "bob" (loser) used by the concrete examples. -/
def bobLoss : Side := ⟨some "bob", some "checkmated", some 1400⟩

/-- First of two blitz games tied at end time 5. -/
def gA : Game := mkGame "a" (some "blitz") (some 5) aliceWin bobLoss

/-- Second of two blitz games tied at end time 5. -/
def gB5 : Game := mkGame "b" (some "blitz") (some 5) aliceWin bobLoss

/-- A single blitz game (category stored in lowercase), end time 100. -/
def gBlitz : Game := mkGame "g" (some "blitz") (some 100) aliceWin bobLoss

/-- Blitz games ending at 100 / 200 / 300 for the Previous-Game Finder example. -/
def gPrev100 : Game := mkGame "p100" (some "blitz") (some 100) aliceWin bobLoss

/-- See `gPrev100`. -/
def gPrev200 : Game := mkGame "p200" (some "blitz") (some 200) aliceWin bobLoss

/-- See `gPrev100`. -/
def gPrev300 : Game := mkGame "p300" (some "blitz") (some 300) aliceWin bobLoss

/-- JS `zeroPad(n) = String(n).padStart(2, '0')` (src/main.js:220; the `len`
parameter is never passed, so it is always 2). -/
def zeroPad (n : Nat) : String :=
  let s := toString n
  if s.length < 2 then "0" ++ s else s

/-- An instant as the JS `Date` getters deliver it to `formatWithPattern`
(src/main.js:222-227): `getFullYear / getMonth / getDate / getHours /
getMinutes / getSeconds`; `month0` is the 0-based `getMonth()` value. -/
structure JsDate where
  fullYear : Nat
  month0 : Nat
  dayOfMonth : Nat
  hours : Nat
  minutes : Nat
  seconds : Nat
  deriving DecidableEq, Repr

/-- `h12 = H % 12 === 0 ? 12 : H % 12` (src/main.js:228). -/
def h12 (H : Nat) : Nat := if H % 12 = 0 then 12 else H % 12

/-- Replacement for the `yyyy` token: `String(y)` (src/main.js:232). -/
def yyyyStr (d : JsDate) : String := toString d.fullYear

/-- Replacement for `MM`: `zeroPad(getMonth() + 1)`. -/
def MMStr (d : JsDate) : String := zeroPad (d.month0 + 1)

/-- Replacement for `dd`. -/
def ddStr (d : JsDate) : String := zeroPad d.dayOfMonth

/-- Replacement for `HH`. -/
def HHStr (d : JsDate) : String := zeroPad d.hours

/-- Replacement for `hh`: zero-padded 12-hour value (src/main.js:236). -/
def hhStr (d : JsDate) : String := zeroPad (h12 d.hours)

/-- Replacement for `mm`. -/
def mmStr (d : JsDate) : String := zeroPad d.minutes

/-- Replacement for `ss`. -/
def ssStr (d : JsDate) : String := zeroPad d.seconds

/-- Replacement for `a`: `H < 12 ? 'AM' : 'PM'` (src/main.js:229). -/
def aStr (d : JsDate) : String := if d.hours < 12 then "AM" else "PM"

/-- The token alternation of the regex `/(yyyy|MM|dd|HH|hh|mm|ss|a)/g`
(src/main.js:230), in the order the regex engine tries the alternatives. -/
def fmtTokKeys : List (List Char) :=
  ["yyyy".data, "MM".data, "dd".data, "HH".data, "hh".data, "mm".data,
   "ss".data, "a".data]

/-- First token of the alternation matching at the head of `l`, if any. -/
def findTokKey (l : List Char) : Option (List Char) :=
  fmtTokKeys.find? (fun k => k.isPrefixOf l)

/-- `map[tok] ?? tok` (src/main.js:242); the fallback branch is dead since the
map is total on the eight tokens. -/
def tokRep (d : JsDate) (k : List Char) : String :=
  if k = "yyyy".data then yyyyStr d
  else if k = "MM".data then MMStr d
  else if k = "dd".data then ddStr d
  else if k = "HH".data then HHStr d
  else if k = "hh".data then hhStr d
  else if k = "mm".data then mmStr d
  else if k = "ss".data then ssStr d
  else if k = "a".data then aStr d
  else String.mk k

/-- The global token replacement `fmt.replace(tokenRe, tok => map[tok] ?? tok)`
as a left-to-right scan: at each position the first matching alternative is
substituted and the scan resumes after it (replacements are not rescanned);
non-matching characters pass through.  `fuel ≥ length` suffices since each step
consumes at least one character. -/
def formatScanAux (d : JsDate) : Nat → List Char → List Char
  | _, [] => []
  | 0, l => l
  | fuel + 1, c :: cs =>
    match findTokKey (c :: cs) with
    | some k => (tokRep d k).data ++ formatScanAux d fuel ((c :: cs).drop k.length)
    | none => c :: formatScanAux d fuel cs

/-- `formatWithPattern` (src/main.js:221-243); an absent or empty pattern falls
back to `'yyyy-MM-dd HH:mm'`. -/
def formatWithPattern (d : JsDate) (pattern : Option String) : String :=
  let fmt := orElseStr pattern "yyyy-MM-dd HH:mm"
  String.mk (formatScanAux d fmt.data.length fmt.data)

/-- Whether any format token occurs anywhere in `l` (for the pass-through
property: a pattern without tokens is an "unrecognized substring"). -/
def hasFmtTok : List Char → Bool
  | [] => false
  | c :: cs => (findTokKey (c :: cs)).isSome || hasFmtTok cs

/-- Match the regex `{{\s*key\s*}}` at the head of `l`, returning the suffix
after the match.  All keys are words without whitespace or braces, so the
greedy `\s*` runs need no backtracking. -/
def matchTok (key : List Char) (l : List Char) : Option (List Char) :=
  match l with
  | '\x7b' :: '\x7b' :: rest =>
    let rest2 := rest.dropWhile isWsChar
    if key.isPrefixOf rest2 then
      match (rest2.drop key.length).dropWhile isWsChar with
      | '\x7d' :: '\x7d' :: tail => some tail
      | _ => none
    else none
  | _ => none

/-- One global regex replacement as JS performs it: scan left to right,
replace each non-overlapping match, never rescanning the replacement text
within the same call.  `fuel ≥ length` suffices since every step consumes at
least one character of `l`. -/
def replaceTokAux (key repl : List Char) : Nat → List Char → List Char
  | _, [] => []
  | 0, l => l
  | fuel + 1, c :: cs =>
    match matchTok key (c :: cs) with
    | some tail => repl ++ replaceTokAux key repl fuel tail
    | none => c :: replaceTokAux key repl fuel cs

/-- `out.replace(/{{\s*key\s*}}/g, repl)` (src/main.js:559-560 and 570-571);
the replacement values contain no `$` patterns, so literal insertion is exact. -/
def replaceTok (key repl l : List Char) : List Char :=
  replaceTokAux key repl l.length l

/-- Whether `{{\s*key\s*}}` matches anywhere in `l`. -/
def hasTok (key : List Char) : List Char → Bool
  | [] => false
  | c :: cs => (matchTok key (c :: cs)).isSome || hasTok key cs

/-- `normalizeVarsToNA`'s per-value normalization (src/main.js:543-554):
`undefined` / `null` and the empty string become the literal "N/A". -/
def normVal : Option String → String
  | none => "N/A"
  | some s => if s = "" then "N/A" else s

/-- `normalizeVarsToNA` (src/main.js:543-554) over the entries of the variable
object, in insertion order. -/
def normalizeVarsToNA (vars : List (String × Option String)) :
    List (String × String) :=
  vars.map (fun kv => (kv.1, normVal kv.2))

/-- One key's substitution pass of the renderer (src/main.js:558-561); the
normalized value is never null, so `v ?? 'N/A'` is just `v`. -/
def applyVar (out : String) (kv : String × String) : String :=
  String.mk (replaceTok kv.1.data kv.2.data out.data)

/-- The legacy/removed handlebar names blanked to "N/A" (src/main.js:563-568). -/
def legacyKeys : List String :=
  ["start", "end", "time_class", "timeClass",
   "lookup", "lookup_url", "lookup_rating", "lookup_result",
   "other", "other_url", "other_rating", "other_result"]

/-- `renderTemplate` (src/main.js:555-574): normalize the variables, run one
global replacement pass per variable key (in insertion order), then one per
legacy key, then trim. -/
def renderTemplate (tpl : Option String)
    (vars : List (String × Option String)) : String :=
  let out0 := orElseStr tpl ""
  let afterVars := (normalizeVarsToNA vars).foldl applyVar out0
  let afterLegacy := legacyKeys.foldl
    (fun out k => String.mk (replaceTok k.data "N/A".data out.data)) afterVars
  jsTrim afterLegacy

/-- JS `pgn.split(/\n\n/)`: split on non-overlapping double newlines, scanning
left to right.  `fuel ≥ length` suffices. -/
def splitNNAux : Nat → List Char → List Char → List (List Char)
  | _, acc, [] => [acc.reverse]
  | 0, acc, l => [acc.reverse ++ l]
  | fuel + 1, acc, '\n' :: '\n' :: rest => acc.reverse :: splitNNAux fuel [] rest
  | fuel + 1, acc, c :: rest => splitNNAux fuel (c :: acc) rest

/-- `pgn.split(/\n\n/)` (src/main.js:295). -/
def splitNN (l : List Char) : List (List Char) := splitNNAux l.length [] l

/-- The suffix after the first occurrence of `c`, if any. -/
def afterChar (c : Char) : List Char → Option (List Char)
  | [] => none
  | x :: xs => if x = c then some xs else afterChar c xs

/-- One global replacement of delimited spans with a space, as the regexes
`/\x7b[^}]*\x7d/g` and `/\([^)]*\)/g` (src/main.js:298) behave: from an opener,
everything through the FIRST closer becomes one space (the inner class excludes
only the closer); an opener with no later closer stays literal. -/
def stripDelimAux (o c : Char) : Nat → List Char → List Char
  | _, [] => []
  | 0, l => l
  | fuel + 1, x :: xs =>
    if x = o then
      match afterChar c xs with
      | some rest => ' ' :: stripDelimAux o c fuel rest
      | none => x :: stripDelimAux o c fuel xs
    else x :: stripDelimAux o c fuel xs

/-- See `stripDelimAux`. -/
def stripDelim (o c : Char) (l : List Char) : List Char :=
  stripDelimAux o c l.length l

/-- The alternation `(1-0|0-1|1\/2-1\/2|\*)` in the order the regex engine
tries the alternatives (src/main.js:300). -/
def resultAlts : List (List Char) :=
  ["1-0".data, "0-1".data, "1/2-1/2".data, "*".data]

/-- The suffix of `l` starting at its LAST newline, if any. -/
def lastNlSuffix : List Char → Option (List Char)
  | [] => none
  | c :: cs =>
    match lastNlSuffix cs with
    | some s => some s
    | none => if c = '\n' then some (c :: cs) else none

/-- Greedy `\s*$` with the multiline flag, right after a result token: the
whitespace run either reaches the end of the string (all consumed) or the
match extends to the run's last newline (`$` holds just before a newline);
otherwise the tail fails.  Returns the unconsumed remainder. -/
def matchTailWS (l : List Char) : Option (List Char) :=
  let run := l.takeWhile isWsChar
  let rest := l.drop run.length
  if rest = [] then some []
  else (lastNlSuffix run).map (· ++ rest)

/-- Try the result alternatives in order at `l`, requiring the `\s*$` tail;
on tail failure the engine backtracks into the next alternative. -/
def tryAlts : List (List Char) → List Char → Option (List Char)
  | [], _ => none
  | a :: as, l =>
    if a.isPrefixOf l then
      match matchTailWS (l.drop a.length) with
      | some rem => some rem
      | none => tryAlts as l
    else tryAlts as l

/-- `s.replace(/\s(1-0|0-1|1\/2-1\/2|\*)\s*$/m, ' ')` (src/main.js:300): no `g`
flag, so only the FIRST match — one whitespace char, a result token and the
greedy `\s*` up to an end of line — is replaced by a single space. -/
def stripResultAux : Nat → List Char → List Char
  | _, [] => []
  | 0, l => l
  | fuel + 1, c :: cs =>
    if isWsChar c then
      match tryAlts resultAlts cs with
      | some rem => ' ' :: rem
      | none => c :: stripResultAux fuel cs
    else c :: stripResultAux fuel cs

/-- See `stripResultAux`. -/
def stripResult (l : List Char) : List Char := stripResultAux l.length l

/-- Words of an already-trimmed, non-empty character list. -/
def splitWsWords : Nat → List Char → List (List Char)
  | _, [] => []
  | 0, l => [l]
  | fuel + 1, l =>
    let w := l.takeWhile (fun c => ! isWsChar c)
    let rest := (l.drop w.length).dropWhile isWsChar
    w :: splitWsWords fuel rest

/-- `s.trim().split(/\s+/)` (src/main.js:302): the singleton `[""]` when the
trimmed string is empty, else its whitespace-separated words. -/
def splitTrimWs (l : List Char) : List (List Char) :=
  let t := ((l.dropWhile isWsChar).reverse.dropWhile isWsChar).reverse
  if t = [] then [[]] else splitWsWords t.length t

/-- `/^\d+\.\.\.|^\d+\.$/.test t` (move-number markers, src/main.js:304):
digits followed by "..." (anything after), or digits followed by a final dot. -/
def isMoveNumTok (t : List Char) : Bool :=
  let ds := t.takeWhile Char.isDigit
  let rest := t.drop ds.length
  ds ≠ [] && ("...".data.isPrefixOf rest || rest = ['.'])

/-- `^\$\d+$` (numeric annotation glyphs, src/main.js:306). -/
def isNagTok (t : List Char) : Bool :=
  match t with
  | '$' :: ds => ds ≠ [] && ds.all Char.isDigit
  | _ => false

/-- `^\d-\d$` (src/main.js:306). -/
def isDigitDashDigit (t : List Char) : Bool :=
  match t with
  | [a, b, c] => a.isDigit && b = '-' && c.isDigit
  | _ => false

/-- `^(1-0|0-1|1\/2-1\/2)$` (src/main.js:306). -/
def isResultTok (t : List Char) : Bool :=
  t = "1-0".data || t = "0-1".data || t = "1/2-1/2".data

/-- `^[!?+#]+$` (annotation glyph runs, src/main.js:306). -/
def isAnnoRun (t : List Char) : Bool :=
  t ≠ [] && t.all (fun c => c = '!' || c = '?' || c = '+' || c = '#')

/-- The ply count of the movetext pipeline of `countFullMovesFromPgn`
(src/main.js:295-307): last blank-line-separated section, comments and
variations blanked, trailing result token removed, whitespace tokenization,
move-number / NAG / result / annotation tokens discarded. -/
def pgnPlyCount (pgn : String) : Nat :=
  let parts := splitNN pgn.data
  let movesSection := (parts.getLast?).getD []
  let s1 := stripDelim '\x7b' '\x7d' movesSection
  let s2 := stripDelim '(' ')' s1
  let s3 := stripResult s2
  let tokens := splitTrimWs s3
  let sans := tokens.filter (fun t => ! isMoveNumTok t)
  let clean := sans.filter (fun t =>
    ! t.isEmpty && ! isNagTok t && ! isDigitDashDigit t && ! (t == ['*']) &&
    ! isResultTok t && ! isAnnoRun t)
  clean.length

/-- `countFullMovesFromPgn` (src/main.js:290-314): "N/A" on absent or empty
input, else `String(Math.max(1, Math.ceil(ply / 2)))`; the try/catch is dead in
this total pipeline, so no other outcome exists. -/
def countFullMovesFromPgn (pgn : Option String) : String :=
  match pgn with
  | none => "N/A"
  | some p =>
    if p = "" then "N/A"
    else toString (max 1 ((pgnPlyCount p + 1) / 2))

/-- JS `game.white || {}` (src/main.js:461-462): an absent side becomes an
empty object, whose fields all read as `undefined`. -/
def emptySide : Side := ⟨none, none, none⟩

/-- `const white = game.white || {}`. -/
def whiteOf (g : Game) : Side := g.white.getD emptySide

/-- `const black = game.black || {}`. -/
def blackOf (g : Game) : Side := g.black.getD emptySide

/-- `outcomeCategory(white.result)` (src/main.js:466). -/
def whiteCatOf (g : Game) : Outcome := outcomeCategory (whiteOf g).result

/-- `outcomeCategory(black.result)` (src/main.js:467). -/
def blackCatOf (g : Game) : Outcome := outcomeCategory (blackOf g).result

/-- `winnerSide` (src/main.js:468): the white side is checked first. -/
def winnerSideOf (g : Game) : Option Color :=
  if whiteCatOf g = .win then some .white
  else if blackCatOf g = .win then some .black
  else none

/-- `loserSide` (src/main.js:469): the white side is checked first. -/
def loserSideOf (g : Game) : Option Color :=
  if whiteCatOf g = .loss then some .white
  else if blackCatOf g = .loss then some .black
  else none

/-- `winner` (src/main.js:470). -/
def winnerOf (g : Game) : Option Side :=
  (winnerSideOf g).map (fun c => match c with
    | .white => whiteOf g
    | .black => blackOf g)

/-- `loser` (src/main.js:471). -/
def loserOf (g : Game) : Option Side :=
  (loserSideOf g).map (fun c => match c with
    | .white => whiteOf g
    | .black => blackOf g)

/-- Uppercase hexadecimal digit for percent-encoding. -/
def hexDigit (n : Nat) : Char :=
  if n < 10 then Char.ofNat (48 + n) else Char.ofNat (55 + n)

/-- UTF-8 bytes of a code point. -/
def utf8Bytes (n : Nat) : List Nat :=
  if n < 128 then [n]
  else if n < 2048 then [192 + n / 64, 128 + n % 64]
  else if n < 65536 then [224 + n / 4096, 128 + (n / 64) % 64, 128 + n % 64]
  else [240 + n / 262144, 128 + (n / 4096) % 64, 128 + (n / 64) % 64,
        128 + n % 64]

/-- Characters `encodeURIComponent` leaves unescaped. -/
def isUriUnreserved (c : Char) : Bool :=
  c.isAlphanum || c = '-' || c = '_' || c = '.' || c = '!' || c = '~' ||
  c = '*' || c = Char.ofNat 39 || c = '(' || c = ')'

/-- JS `encodeURIComponent`: unreserved characters pass through, every other
character is percent-encoded per UTF-8 byte with uppercase hex. -/
def encodeURIComponent (s : String) : String :=
  String.mk (s.data.foldr
    (fun c acc =>
      if isUriUnreserved c then c :: acc
      else (utf8Bytes c.toNat).foldr
        (fun b acc2 => '%' :: hexDigit (b / 16) :: hexDigit (b % 16) :: acc2)
        acc)
    [])

/-- `profileUrl` (src/main.js:442-447). -/
def profileUrl (username : Option String) : String :=
  let u := jsTrim (orElseStr username "")
  if u = "" then ""
  else "https://www.chess.com/member/" ++ encodeURIComponent u

/-- JS truthiness of a possibly-absent string. -/
def truthyOpt (o : Option String) : Bool :=
  match o with
  | some s => ! (s == "")
  | none => false

/-- The `white`, `white_url`, `white_rating` template values
(src/main.js:516-518). -/
def whiteFields (g : Game) : String × String × String :=
  (orElseStr (whiteOf g).username "",
   profileUrl (whiteOf g).username,
   match (whiteOf g).rating with
   | some r => toString r
   | none => "")

/-- The `winner`, `winner_url`, `winner_rating` template values
(src/main.js:524-526). -/
def winnerFields (g : Game) : String × String × String :=
  (orElseStr ((winnerOf g).bind (·.username)) "",
   if truthyOpt ((winnerOf g).bind (·.username))
     then profileUrl ((winnerOf g).bind (·.username)) else "",
   match (winnerOf g).bind (·.rating) with
   | some r => toString r
   | none => "")

/-- The `loser`, `loser_url`, `loser_rating` template values
(src/main.js:527-529). -/
def loserFields (g : Game) : String × String × String :=
  (orElseStr ((loserOf g).bind (·.username)) "",
   if truthyOpt ((loserOf g).bind (·.username))
     then profileUrl ((loserOf g).bind (·.username)) else "",
   match (loserOf g).bind (·.rating) with
   | some r => toString r
   | none => "")

/-- `lookupName` (src/main.js:472):
`(lookupUsername && lookupUsername.trim()) || (meColor === 'white' ?
white.username : black.username) || ''`. -/
def lookupNameOf (w b : Side) (meColor : Color) (lookupUsername : String) :
    String :=
  let e1 := if lookupUsername = "" then "" else jsTrim lookupUsername
  if e1 ≠ "" then e1
  else orElseStr (match meColor with
    | .white => w.username
    | .black => b.username) ""

/-- `lookupNorm` (src/main.js:473). -/
def lookupNormOf (g : Game) (meColor : Color) (lookupUsername : String) :
    String :=
  jsToLower (jsTrim (lookupNameOf (whiteOf g) (blackOf g) meColor lookupUsername))

/-- `lookupSide` (src/main.js:476): the focus's normalized name against the
white side, then the black side, else the originally resolved color. -/
def lookupSideOf (g : Game) (meColor : Color) (lookupUsername : String) :
    Color :=
  if some (lookupNormOf g meColor lookupUsername)
      = normalizeUsername (whiteOf g).username then .white
  else if some (lookupNormOf g meColor lookupUsername)
      = normalizeUsername (blackOf g).username then .black
  else meColor

/-- `lookupPlayer` (src/main.js:477): the focus's side in the current game. -/
def lookupPlayerOf (g : Game) (meColor : Color) (lookupUsername : String) :
    Side :=
  match lookupSideOf g meColor lookupUsername with
  | .white => whiteOf g
  | .black => blackOf g

/-- `prevLookup` (src/main.js:485-487): the previous game's white side when its
normalized username equals the focus's normalized name, else its black side. -/
def prevLookupOf (g : Game) (meColor : Color) (lookupUsername : String)
    (prev : Game) : Side :=
  if normalizeUsername (whiteOf prev).username
      = some (lookupNormOf g meColor lookupUsername)
  then whiteOf prev else blackOf prev

/-- `delta > 0 ? '+' + delta : String(delta)` (src/main.js:490). -/
def renderDelta (delta : Int) : String :=
  if delta > 0 then "+" ++ toString delta else toString delta

/-- The `rating_change` computation (src/main.js:479-497).  The awaited
`getPreviousGameForUser` call is abstracted by its outcome: `Except.error`
models a thrown failure (network error), which the surrounding try/catch turns
into the empty string; `Except.ok` its returned value. -/
def ratingChangeOf (g : Game) (meColor : Color) (lookupUsername : String)
    (prevOutcome : Except Unit (Option Game)) : String :=
  if etD g ≠ 0 ∧ orElseStr g.time_class "" ≠ "" ∧
      lookupNameOf (whiteOf g) (blackOf g) meColor lookupUsername ≠ "" then
    match prevOutcome with
    | .error _ => ""
    | .ok none => ""
    | .ok (some prev) =>
      match (lookupPlayerOf g meColor lookupUsername).rating,
            (prevLookupOf g meColor lookupUsername prev).rating with
      | some cur, some prevR => renderDelta (cur - prevR)
      | _, _ => ""
  else ""

/-- An earlier blitz game in which alice's rating was 1488. -/
def gPrevRated : Game :=
  mkGame "prev" (some "blitz") (some 900)
    ⟨some "alice", some "win", some 1488⟩ bobLoss

/-- A game both of whose sides carry the result code "win". -/
def gBothWin : Game :=
  mkGame "bw" (some "blitz") (some 50)
    ⟨some "alice", some "win", some 1500⟩ ⟨some "bob", some "win", some 1400⟩

/-- A game both of whose sides carry a loss result code. -/
def gBothLoss : Game :=
  mkGame "bl" (some "blitz") (some 60)
    ⟨some "alice", some "resigned", some 1500⟩
    ⟨some "bob", some "timeout", some 1400⟩

/-- The template-variable vocabulary produced by the builder and fixed by the
external interface (spec section 6). -/
def contractKeys : List String :=
  ["rated", "rules", "start_timestamp", "end_timestamp", "start_date",
   "end_date", "start_time", "end_time", "moves", "time", "url", "game_type",
   "white", "white_url", "white_rating", "white_result",
   "black", "black_url", "black_rating", "black_result",
   "winner", "winner_url", "winner_rating", "loser", "loser_url",
   "loser_rating", "focus", "focus_url", "focus_rating", "focus_result",
   "foe", "foe_url", "foe_rating", "foe_result", "rating_change"]

end LastChess

namespace LastChess

/-- C7: the Outcome Classifier is total and realizes exactly the documented
case-insensitive table: "win" ↦ Win; the seven draw codes ↦ Draw; the five loss
codes ↦ Loss; everything else — including empty and absent codes — ↦ Unknown. -/
theorem c7_outcome_classifier_table :
    (∀ result : Option String, outcomeCategory result = outcomeSpecTable result)
    ∧ outcomeCategory none = .unknown
    ∧ outcomeCategory (some "") = .unknown
    ∧ outcomeCategory (some "WIN") = .win
    ∧ outcomeCategory (some "TimeVsInsufficient") = .draw
    ∧ outcomeCategory (some "Abandoned") = .loss := by
  refine ⟨?_, by decide, by decide, by decide, by decide, by decide⟩
  intro result
  simp only [outcomeCategory, outcomeSpecTable, List.mem_cons, List.mem_singleton,
    List.not_mem_nil, or_false]

theorem etD_le_maxEt {g : Game} {l : List Game} (h : g ∈ l) : etD g ≤ maxEt l := by
  induction l with
  | nil => cases h
  | cons x t ih =>
    rcases List.mem_cons.mp h with h | h
    · subst h; simp [maxEt]
    · have := ih h; simp [maxEt]; omega

theorem mem_of_getLast? {l : List Game} {a : Game} (h : l.getLast? = some a) : a ∈ l := by
  induction l with
  | nil => simp [List.getLast?] at h
  | cons x t ih =>
    cases t with
    | nil => simp [List.getLast?] at h; simp [h]
    | cons y u =>
      rw [List.getLast?_cons_cons] at h
      exact List.mem_cons_of_mem _ (ih h)

theorem runMax_cons (b g : Game) (t : List Game) :
    runMax b (g :: t) = runMax (if etD g > etD b then g else b) t := by
  simp [runMax, List.foldl]

theorem runMax_etD (l : List Game) : ∀ b : Game, etD (runMax b l) = max (etD b) (maxEt l) := by
  induction l with
  | nil => intro b; simp [runMax, maxEt]
  | cons g t ih =>
    intro b
    rw [runMax_cons]
    by_cases hg : etD g > etD b
    · rw [if_pos hg, ih g]
      simp only [maxEt]
      omega
    · rw [if_neg hg, ih b]
      simp only [maxEt]
      omega

theorem runMax_mem (l : List Game) : ∀ b : Game, runMax b l = b ∨ runMax b l ∈ l := by
  induction l with
  | nil => intro b; left; rfl
  | cons g t ih =>
    intro b
    rw [runMax_cons]
    by_cases hg : etD g > etD b
    · rw [if_pos hg]
      rcases ih g with h | h
      · right; rw [h]; exact List.mem_cons_self _ _
      · right; exact List.mem_cons_of_mem _ h
    · rw [if_neg hg]
      rcases ih b with h | h
      · left; exact h
      · right; exact List.mem_cons_of_mem _ h

theorem runMax_eq_self (l : List Game) :
    ∀ b : Game, maxEt l ≤ etD b → runMax b l = b := by
  induction l with
  | nil => intro b _; rfl
  | cons g t ih =>
    intro b h
    simp only [maxEt, max_le_iff] at h
    rw [runMax_cons, if_neg (by omega)]
    exact ih b h.2

theorem runMax_find (l : List Game) :
    ∀ b : Game, etD b < maxEt l →
      l.find? (fun g => decide (maxEt l ≤ etD g)) = some (runMax b l) := by
  induction l with
  | nil => intro b h; simp [maxEt] at h
  | cons g t ih =>
    intro b h
    rw [runMax_cons]
    by_cases h1 : maxEt t ≤ etD g
    · have hmax : maxEt (g :: t) = etD g := by simp [maxEt]; omega
      have hb : etD b < etD g := by simp only [maxEt] at h; omega
      rw [if_pos hb, runMax_eq_self t g h1]
      rw [List.find?_cons_of_pos _ (by simp [hmax])]
    · push_neg at h1
      have hmax : maxEt (g :: t) = maxEt t := by simp [maxEt]; omega
      rw [List.find?_cons_of_neg _ (by simp [hmax]; omega)]
      simp only [hmax]
      by_cases hg : etD g > etD b
      · rw [if_pos hg]; exact ih g h1
      · rw [if_neg hg]
        exact ih b (by simp only [maxEt] at h; omega)

theorem foldl_stepSrc_eq_runMax (l : List Game) :
    ∀ b : Game, etD b ≠ 0 → (∀ g ∈ l, etD g ≠ 0) →
      l.foldl stepSrc b = runMax b l := by
  induction l with
  | nil => intro b _ _; rfl
  | cons g t ih =>
    intro b hb hl
    have hg : etD g ≠ 0 := hl g (List.mem_cons_self _ _)
    have hstep : stepSrc b g = if etD g > etD b then g else b := by
      by_cases hgt : etD g > etD b
      · rw [if_pos hgt]; simp [stepSrc, hg, hgt]
      · rw [if_neg hgt]; simp [stepSrc, hb, hgt]
    rw [List.foldl_cons, hstep, runMax_cons]
    have hb' : etD (if etD g > etD b then g else b) ≠ 0 := by
      by_cases hgt : etD g > etD b <;> simp [hgt, hg, hb]
    exact ih _ hb' (fun x hx => hl x (List.mem_cons_of_mem _ hx))

theorem pickPrev_cons (g : Game) (t : List Game) :
    pickPrev (g :: t) = some (runMax g t) := by
  have aux : ∀ (t : List Game) (b : Game),
      t.foldl (fun latest g => match latest with
        | none => some g
        | some l => if etD g > etD l then some g else latest) (some b)
      = some (runMax b t) := by
    intro t
    induction t with
    | nil => intro b; rfl
    | cons x u ih =>
      intro b
      rw [List.foldl_cons, runMax_cons]
      by_cases hx : etD x > etD b
      · simp only [hx, if_pos]
        exact ih x
      · simp only [hx, if_neg]
        exact ih b
  simp only [pickPrev, List.foldl_cons]
  exact aux t g

theorem pickPrev_eq_none {l : List Game} : pickPrev l = none ↔ l = [] := by
  constructor
  · intro h
    cases l with
    | nil => rfl
    | cons g t => rw [pickPrev_cons] at h; cases h
  · intro h; subst h; rfl

theorem pickPrev_spec {l : List Game} {c : Game} (h : pickPrev l = some c) :
    c ∈ l ∧ etD c = maxEt l ∧
      l.find? (fun g => decide (maxEt l ≤ etD g)) = some c := by
  cases l with
  | nil => cases h
  | cons g t =>
    rw [pickPrev_cons] at h
    injection h with h
    subst h
    refine ⟨?_, ?_, ?_⟩
    · rcases runMax_mem t g with h | h
      · rw [h]; exact List.mem_cons_self _ _
      · exact List.mem_cons_of_mem _ h
    · rw [runMax_etD]; simp [maxEt]
    · by_cases h1 : maxEt t ≤ etD g
      · have hmax : maxEt (g :: t) = etD g := by simp [maxEt]; omega
        rw [runMax_eq_self t g h1]
        rw [List.find?_cons_of_pos _ (by simp [hmax])]
      · push_neg at h1
        have hmax : maxEt (g :: t) = maxEt t := by simp [maxEt]; omega
        rw [List.find?_cons_of_neg _ (by simp [hmax]; omega)]
        simp only [hmax]
        exact runMax_find t g h1

theorem findPrevAux_spec (tc : String) (cutoff : Nat) :
    ∀ (months : List (List Game)) (g : Game),
      findPrevAux tc cutoff months = some g →
      ∃ pre month rest, months = pre ++ month :: rest ∧
        (∀ m ∈ pre, m.filter (prevQualifies tc cutoff) = []) ∧
        pickPrev (month.filter (prevQualifies tc cutoff)) = some g := by
  intro months
  induction months with
  | nil => intro g h; cases h
  | cons m rest ih =>
    intro g h
    rw [findPrevAux] at h
    rcases hm : pickPrev (m.filter (prevQualifies tc cutoff)) with _ | g'
    · rw [hm] at h
      obtain ⟨pre, month, rest', heq, hpre, hpick⟩ := ih g h
      refine ⟨m :: pre, month, rest', by rw [heq]; rfl, ?_, hpick⟩
      intro x hx
      rcases List.mem_cons.mp hx with hx | hx
      · subst hx; exact pickPrev_eq_none.mp hm
      · exact hpre x hx
    · rw [hm] at h
      injection h with h
      subst h
      exact ⟨[], m, rest, rfl, by simp, hm⟩

/-- C1 (counterexample): two candidate games `gA`, `gB5` in one archive share the
maximal end time 5, yet the resolver selects `gB5`, the LATER one in list order —
refuting "among several candidates sharing the maximal end time the earliest one
in list order is selected". -/
theorem c1_counterexample_tie_goes_to_last :
    etD gA = etD gB5 ∧ gB5 ≠ gA ∧
    selectLatest [gA, gB5] = some gB5 ∧
    getLastGameForUser [[gA, gB5]] "alice" none = some ⟨gB5, .white, "alice"⟩ := by
  decide

/-- C1 (amended): the per-archive scan is a running max over end times whose
accumulator is initialized with the LAST candidate in list order (not the
first).  Hence, when every candidate has a present (nonzero) end time, the
selected candidate attains the maximal end time; it is the last candidate
whenever the last candidate attains the maximum, and otherwise it is the
earliest candidate attaining the maximum. -/
theorem c1_amended_selection :
    ∀ (candidates : List Game) (L c : Game),
      candidates.getLast? = some L →
      (∀ g ∈ candidates, etD g ≠ 0) →
      selectLatest candidates = some c →
      c ∈ candidates ∧ etD c = maxEt candidates ∧
      (etD L = maxEt candidates → c = L) ∧
      (etD L ≠ maxEt candidates →
        candidates.find? (fun g => decide (maxEt candidates ≤ etD g)) = some c) := by
  intro candidates L c hL hnz hsel
  have hLmem : L ∈ candidates := mem_of_getLast? hL
  have hLnz : etD L ≠ 0 := hnz L hLmem
  have hc : c = runMax L candidates := by
    simp only [selectLatest, hL] at hsel
    injection hsel with hsel
    rw [← hsel, foldl_stepSrc_eq_runMax candidates L hLnz hnz]
  have hLle : etD L ≤ maxEt candidates := etD_le_maxEt hLmem
  subst hc
  refine ⟨?_, ?_, ?_, ?_⟩
  · rcases runMax_mem candidates L with h | h
    · rw [h]; exact hLmem
    · exact h
  · rw [runMax_etD]; omega
  · intro htie
    exact runMax_eq_self candidates L (by omega)
  · intro hne
    exact runMax_find candidates L (by omega)

/-- C1 (amended, witness): the amended characterization applied to the concrete
tied archive `[gA, gB5]`, whose last element attains the maximum. -/
theorem c1_amended_selection_witness :
    gB5 ∈ [gA, gB5] ∧ etD gB5 = maxEt [gA, gB5] ∧
    (etD gB5 = maxEt [gA, gB5] → gB5 = gB5) ∧
    (etD gB5 ≠ maxEt [gA, gB5] →
      [gA, gB5].find? (fun g => decide (maxEt [gA, gB5] ≤ etD g)) = some gB5) :=
  c1_amended_selection [gA, gB5] gB5 gB5 (by decide) (by decide) (by decide)

/-- C3 (counterexample): "Blitz" and "blitz" are equal up to letter case and
`gBlitz` is stored with category "blitz", but a request for "Blitz" matches
nothing in either pass — while a lowercase request "blitz" finds the game.
This refutes "the game qualifies if and only if its category equals the
requested one up to letter case". -/
theorem c3_counterexample_mixed_case_request :
    jsToLower "Blitz" = jsToLower "blitz" ∧
    gBlitz.time_class = some "blitz" ∧
    catMatches gBlitz "Blitz" = false ∧
    getLastGameForUser [[gBlitz]] "alice" (some "Blitz") = none ∧
    getPreviousGameForUser [[gBlitz]] "alice" "Blitz" 999 = none ∧
    getLastGameForUser [[gBlitz]] "alice" (some "blitz") =
      some ⟨gBlitz, .white, "alice"⟩ := by
  decide

/-- C3 (amended): the shared category filter of both passes accepts a game iff
its stored category is present and its LOWERCASED stored category equals the
requested string verbatim; consequently lowercase requests (the only ones the
repository's callers produce) match stored categories case-insensitively, but a
non-lowercase request such as "Blitz" matches nothing. -/
theorem c3_amended_category_filter :
    (∀ (g : Game) (tc : String),
        catMatches g tc = true ↔ ∃ s, g.time_class = some s ∧ jsToLower s = tc)
    ∧ (∀ (g : Game) (s : String),
        g.time_class = some s → catMatches g (jsToLower s) = true) := by
  constructor
  · intro g tc
    cases htc : g.time_class with
    | none => simp [catMatches, htc]
    | some s => simp [catMatches, htc]
  · intro g s h
    simp [catMatches, h]

/-- C3 (amended, witness): the lowercase request "blitz" accepts `gBlitz`. -/
theorem c3_amended_category_filter_witness :
    catMatches gBlitz (jsToLower "blitz") = true :=
  c3_amended_category_filter.2 gBlitz "blitz" (by decide)

/-- C4: the Previous-Game Finder only considers games whose category matches and
whose end time (0 if absent) is strictly below the cutoff; it traverses archives
newest-first and, from the first archive with any qualifying candidate, returns
the qualifying candidate with maximal end time, the first such in list order
(ties included); in particular with end times [100, 200, 300] of one category
and cutoff 250 it returns the game ending at 200. -/
theorem c4_previous_game_finder :
    (getPreviousGameForUser [[gPrev100, gPrev200, gPrev300]] "alice" "blitz" 250 =
      some gPrev200)
    ∧ ∀ (archives : List (List Game)) (username timeClass : String)
        (cutoff : Nat) (g : Game),
        getPreviousGameForUser archives username timeClass cutoff = some g →
        ∃ pre month rest, archives.reverse = pre ++ month :: rest ∧
          (∀ m ∈ pre, m.filter (prevQualifies timeClass cutoff) = []) ∧
          g ∈ month.filter (prevQualifies timeClass cutoff) ∧
          prevQualifies timeClass cutoff g = true ∧
          etD g = maxEt (month.filter (prevQualifies timeClass cutoff)) ∧
          (month.filter (prevQualifies timeClass cutoff)).find?
            (fun x => decide (maxEt (month.filter (prevQualifies timeClass cutoff)) ≤ etD x))
            = some g := by
  constructor
  · decide
  · intro archives username timeClass cutoff g h
    rw [getPreviousGameForUser] at h
    by_cases hu : jsToLower (jsTrim username) = ""
    · rw [if_pos hu] at h; cases h
    · rw [if_neg hu] at h
      obtain ⟨pre, month, rest, heq, hpre, hpick⟩ :=
        findPrevAux_spec timeClass cutoff archives.reverse g h
      obtain ⟨hmem, hmax, hfind⟩ := pickPrev_spec hpick
      exact ⟨pre, month, rest, heq, hpre, hmem,
        (List.mem_filter.mp hmem).2, hmax, hfind⟩

/-- C4 (witness): the characterization applied to the concrete one-archive
index with end times [100, 200, 300] and cutoff 250. -/
theorem c4_previous_game_finder_witness :
    ∃ pre month rest,
      ([[gPrev100, gPrev200, gPrev300]] : List (List Game)).reverse
        = pre ++ month :: rest ∧
      (∀ m ∈ pre, m.filter (prevQualifies "blitz" 250) = []) ∧
      gPrev200 ∈ month.filter (prevQualifies "blitz" 250) ∧
      prevQualifies "blitz" 250 gPrev200 = true ∧
      etD gPrev200 = maxEt (month.filter (prevQualifies "blitz" 250)) ∧
      (month.filter (prevQualifies "blitz" 250)).find?
        (fun x => decide (maxEt (month.filter (prevQualifies "blitz" 250)) ≤ etD x))
        = some gPrev200 :=
  c4_previous_game_finder.2 [[gPrev100, gPrev200, gPrev300]] "alice" "blitz" 250
    gPrev200 c4_previous_game_finder.1

theorem mkData (s : String) : String.mk s.data = s := rfl

theorem formatScanAux_noop (d : JsDate) :
    ∀ (fuel : Nat) (l : List Char), l.length ≤ fuel → hasFmtTok l = false →
      formatScanAux d fuel l = l := by
  intro fuel
  induction fuel with
  | zero =>
    intro l hlen _
    cases l with
    | nil => rfl
    | cons c cs => simp at hlen
  | succ n ih =>
    intro l hlen htok
    cases l with
    | nil => rfl
    | cons c cs =>
      simp only [hasFmtTok, Bool.or_eq_false_iff] at htok
      obtain ⟨h1, h2⟩ := htok
      cases hfind : findTokKey (c :: cs) with
      | some k => rw [hfind] at h1; simp at h1
      | none =>
        simp only [formatScanAux, hfind]
        rw [ih cs (by simpa using Nat.le_of_succ_le_succ hlen) h2]

/-- C8: `hh` always renders the zero-padded 12-hour value with hour 0 mapped to
"12" — in particular never "00"; a non-empty pattern containing no recognized
token passes through verbatim; and formatting is deterministic: the same
instant and pattern always give identical strings.  A concrete hour-0 pattern
is evaluated as well. -/
theorem c8_pattern_formatter :
    (∀ d : JsDate, hhStr d ≠ "00" ∧ (d.hours % 12 = 0 → hhStr d = "12"))
    ∧ (∀ (d : JsDate) (p : String), p ≠ "" → hasFmtTok p.data = false →
        formatWithPattern d (some p) = p)
    ∧ (∀ (d : JsDate) (p : Option String),
        formatWithPattern d p = formatWithPattern d p)
    ∧ formatWithPattern ⟨2024, 0, 15, 0, 7, 3⟩ (some "hh:mm a") = "12:07 AM" := by
  refine ⟨?_, ?_, fun d p => rfl, by decide⟩
  · intro d
    constructor
    · unfold hhStr h12
      by_cases h : d.hours % 12 = 0
      · rw [if_pos h]; decide
      · rw [if_neg h]
        have hlt : d.hours % 12 < 12 := Nat.mod_lt _ (by norm_num)
        have key : ∀ k, k < 12 → k ≠ 0 → zeroPad k ≠ "00" := by decide
        exact key _ hlt h
    · intro h
      unfold hhStr h12
      rw [if_pos h]
      decide
  · intro d p hne htok
    simp only [formatWithPattern]
    have hor : orElseStr (some p) "yyyy-MM-dd HH:mm" = p := by
      simp [orElseStr, hne]
    rw [hor, formatScanAux_noop d p.data.length p.data (le_refl _) htok, mkData]

/-- C8 (witness): pass-through and hour-0 behavior at a concrete instant. -/
theorem c8_pattern_formatter_witness :
    formatWithPattern ⟨2024, 0, 15, 0, 7, 3⟩ (some "T-Z") = "T-Z" ∧
    hhStr ⟨2024, 0, 15, 0, 7, 3⟩ = "12" :=
  ⟨c8_pattern_formatter.2.1 ⟨2024, 0, 15, 0, 7, 3⟩ "T-Z" (by decide) (by decide),
   (c8_pattern_formatter.1 ⟨2024, 0, 15, 0, 7, 3⟩).2 (by decide)⟩

theorem replaceTokAux_noop (key repl : List Char) :
    ∀ (fuel : Nat) (l : List Char), l.length ≤ fuel → hasTok key l = false →
      replaceTokAux key repl fuel l = l := by
  intro fuel
  induction fuel with
  | zero =>
    intro l hlen _
    cases l with
    | nil => rfl
    | cons c cs => simp at hlen
  | succ n ih =>
    intro l hlen htok
    cases l with
    | nil => rfl
    | cons c cs =>
      simp only [hasTok, Bool.or_eq_false_iff] at htok
      obtain ⟨h1, h2⟩ := htok
      cases hm : matchTok key (c :: cs) with
      | some tail => rw [hm] at h1; simp at h1
      | none =>
        simp only [replaceTokAux, hm]
        rw [ih cs (by simpa using Nat.le_of_succ_le_succ hlen) h2]

theorem replaceTok_noop {key l : List Char} (h : hasTok key l = false)
    (repl : List Char) : replaceTok key repl l = l :=
  replaceTokAux_noop key repl l.length l (le_refl _) h

theorem varsFold_noop :
    ∀ (vars : List (String × Option String)) (out : String),
      (∀ kv ∈ vars, hasTok kv.1.data out.data = false) →
      (normalizeVarsToNA vars).foldl applyVar out = out := by
  intro vars
  induction vars with
  | nil => intro out _; rfl
  | cons kv vs ih =>
    intro out h
    simp only [normalizeVarsToNA, List.map_cons, List.foldl_cons]
    have hstep : applyVar out (kv.1, normVal kv.2) = out := by
      simp only [applyVar]
      rw [replaceTok_noop (h kv (List.mem_cons_self _ _)) _, mkData]
    rw [hstep]
    exact ih out (fun x hx => h x (List.mem_cons_of_mem _ hx))

/-- C2 (counterexample): the value supplied for `focus` contains the token
`{{lookup}}`; the renderer does NOT insert it literally — the later legacy pass
replaces it with "N/A" — refuting "is inserted literally into the output and is
never itself replaced by another variable's value or by N/A". -/
theorem c2_counterexample_value_substituted :
    renderTemplate (some "{{focus}}") [("focus", some "{{lookup}}")] = "N/A" ∧
    "N/A" ≠ "{{lookup}}" := by decide

/-- C2 (amended): substitution is one non-rescanning global pass per key, run
sequentially (known keys in mapping order, then the legacy keys).  A value
containing `{{token}}` syntax is inserted literally by its own pass but remains
subject to the later passes: tokens of later-processed known keys are replaced
by those variables' values and legacy tokens by "N/A"; a value whose token is
its own key's, or an unknown name, survives to the output literally. -/
theorem c2_amended_sequential_passes :
    renderTemplate (some "{{focus}}") [("focus", some "{{focus}}")] = "{{focus}}"
    ∧ renderTemplate (some "{{focus}}")
        [("focus", some "{{foe}}"), ("foe", some "X")] = "X"
    ∧ renderTemplate (some "{{focus}}")
        [("foe", some "X"), ("focus", some "{{foe}}")] = "{{foe}}"
    ∧ renderTemplate (some "{{focus}}")
        [("focus", some "{{unknownkey}}")] = "{{unknownkey}}"
    ∧ renderTemplate (some "{{focus}}")
        [("focus", some "{{lookup}}")] = "N/A" := by decide

/-- C6: the renderer normalizes undefined/null/empty values to "N/A" and
substitutes every (whitespace-tolerant) occurrence of each known key; the
legacy key set is exactly the twelve documented names and each legacy token is
replaced by "N/A" — in particular `{{lookup}}` always renders "N/A" for every
variable mapping over the fixed contract vocabulary — and the result is
trimmed of leading/trailing whitespace. -/
theorem c6_template_renderer :
    legacyKeys = ["start", "end", "time_class", "timeClass", "lookup",
      "lookup_url", "lookup_rating", "lookup_result", "other", "other_url",
      "other_rating", "other_result"]
    ∧ (∀ vars : List (String × Option String),
        (∀ kv ∈ vars, kv.1 ∈ contractKeys) →
        renderTemplate (some "a {{lookup}} b {{ lookup }} c") vars
          = "a N/A b N/A c")
    ∧ renderTemplate (some "{{focus}} rating {{ focus_rating }}")
        [("focus", some "Hikaru"), ("focus_rating", some "")]
        = "Hikaru rating N/A"
    ∧ renderTemplate (some "{{focus_rating}}") [("focus_rating", none)] = "N/A"
    ∧ renderTemplate (some "  {{focus}}!  ") [("focus", some "Hikaru")]
        = "Hikaru!" := by
  refine ⟨rfl, ?_, by decide, by decide, by decide⟩
  intro vars h
  have hkeys : ∀ k ∈ contractKeys,
      hasTok k.data ("a {{lookup}} b {{ lookup }} c").data = false := by decide
  simp only [renderTemplate]
  rw [show orElseStr (some "a {{lookup}} b {{ lookup }} c") ""
        = "a {{lookup}} b {{ lookup }} c" from rfl]
  rw [varsFold_noop vars _ (fun kv hkv => hkeys kv.1 (h kv hkv))]
  decide

/-- C6 (witness): the always-"N/A" behavior of `{{lookup}}` at a concrete
variable mapping drawn from the contract vocabulary. -/
theorem c6_template_renderer_witness :
    renderTemplate (some "a {{lookup}} b {{ lookup }} c")
      [("focus", some "X"), ("rating_change", some "{{lookup}}")]
      = "a N/A b N/A c" :=
  c6_template_renderer.2.1
    [("focus", some "X"), ("rating_change", some "{{lookup}}")] (by decide)

/-- C9: the Notation Move Counter computes the documented heuristic — the
sample text yields ply count 5 and full-move string "3"; absent or empty input
yields "N/A"; and the function is total, always returning either "N/A" or the
decimal string of a full-move count at least 1 (it never throws). -/
theorem c9_notation_move_counter :
    pgnPlyCount "1. e4 e5 2. Nf3 {note} Nc6 (2...d6) 3. Bb5 1-0" = 5
    ∧ countFullMovesFromPgn
        (some "1. e4 e5 2. Nf3 {note} Nc6 (2...d6) 3. Bb5 1-0") = "3"
    ∧ countFullMovesFromPgn none = "N/A"
    ∧ countFullMovesFromPgn (some "") = "N/A"
    ∧ (∀ pgn : Option String, countFullMovesFromPgn pgn = "N/A" ∨
        ∃ n : Nat, countFullMovesFromPgn pgn = toString n ∧ 1 ≤ n) := by
  refine ⟨by decide, by decide, rfl, rfl, ?_⟩
  intro pgn
  match pgn with
  | none => exact Or.inl rfl
  | some p =>
    by_cases hp : p = ""
    · left; simp [countFullMovesFromPgn, hp]
    · right
      refine ⟨max 1 ((pgnPlyCount p + 1) / 2), ?_, le_max_left _ _⟩
      simp [countFullMovesFromPgn, hp]

/-- C5: `rating_change` is computed only when the game has a (nonzero) end
time, a category, and a non-empty focus username; a thrown failure or an absent
previous game yields the empty string (normalized to "N/A" by the renderer), a
missing rating on either side yields the empty string, and with both ratings
present the delta current − previous renders as "+{n}" when positive and as the
signed numeral otherwise ("0" at zero, "-5"-style when negative). -/
theorem c5_rating_change :
    (∀ (g : Game) (mc : Color) (lu : String) (po : Except Unit (Option Game)),
      etD g = 0 ∨ orElseStr g.time_class "" = "" ∨
        lookupNameOf (whiteOf g) (blackOf g) mc lu = "" →
      ratingChangeOf g mc lu po = "")
    ∧ (∀ (g : Game) (mc : Color) (lu : String),
        ratingChangeOf g mc lu (.error ()) = "")
    ∧ (∀ (g : Game) (mc : Color) (lu : String),
        ratingChangeOf g mc lu (.ok none) = "")
    ∧ (∀ (g : Game) (mc : Color) (lu : String) (prev : Game),
        (lookupPlayerOf g mc lu).rating = none ∨
          (prevLookupOf g mc lu prev).rating = none →
        ratingChangeOf g mc lu (.ok (some prev)) = "")
    ∧ (∀ (g : Game) (mc : Color) (lu : String) (prev : Game) (cur prevR : Int),
        etD g ≠ 0 → orElseStr g.time_class "" ≠ "" →
        lookupNameOf (whiteOf g) (blackOf g) mc lu ≠ "" →
        (lookupPlayerOf g mc lu).rating = some cur →
        (prevLookupOf g mc lu prev).rating = some prevR →
        ratingChangeOf g mc lu (.ok (some prev)) = renderDelta (cur - prevR))
    ∧ (∀ d : Int, 0 < d → renderDelta d = "+" ++ toString d)
    ∧ renderDelta 0 = "0" ∧ renderDelta (-5) = "-5"
    ∧ normVal (some "") = "N/A" := by
  refine ⟨?_, ?_, ?_, ?_, ?_, ?_, by decide, by decide, rfl⟩
  · intro g mc lu po h
    have hcond : ¬(etD g ≠ 0 ∧ orElseStr g.time_class "" ≠ "" ∧
        lookupNameOf (whiteOf g) (blackOf g) mc lu ≠ "") := by tauto
    simp only [ratingChangeOf]
    rw [if_neg hcond]
  · intro g mc lu
    simp only [ratingChangeOf]
    split <;> rfl
  · intro g mc lu
    simp only [ratingChangeOf]
    split <;> rfl
  · intro g mc lu prev h
    simp only [ratingChangeOf]
    split
    · rcases h with h | h
      · rw [h]
      · rw [h]
        cases (lookupPlayerOf g mc lu).rating <;> rfl
    · rfl
  · intro g mc lu prev cur prevR h1 h2 h3 hcur hprevR
    simp only [ratingChangeOf]
    rw [if_pos ⟨h1, h2, h3⟩, hcur, hprevR]
  · intro d hd
    simp [renderDelta, hd]

/-- C5 (witness): current game `gA` (alice rated 1500) against previous game
`gPrevRated` (alice rated 1488) gives "+12"; a thrown fetch gives "". -/
theorem c5_rating_change_witness :
    ratingChangeOf gA .white "alice" (.ok (some gPrevRated)) = "+12" ∧
    ratingChangeOf gA .white "alice" (.error ()) = "" := by
  constructor
  · have h := c5_rating_change.2.2.2.2.1 gA .white "alice" gPrevRated 1500 1488
      (by decide) (by decide) (by decide) (by decide) (by decide)
    rw [h]; decide
  · exact c5_rating_change.2.1 gA .white "alice"

theorem truthy_profileUrl (o : Option String) :
    (if truthyOpt o then profileUrl o else "") = profileUrl o := by
  match o with
  | none => rfl
  | some s =>
    by_cases hs : s = ""
    · subst hs; rfl
    · simp [truthyOpt, hs]

/-- C10: when both sides' result codes classify as Win, the winner fields
mirror the white side (white is checked first), and symmetrically for the loser
fields when both classify as Loss; the black side supplies the winner (loser)
fields only when the white side's result does not classify as Win (Loss). -/
theorem c10_winner_loser_white_first :
    ∀ g : Game,
      (whiteCatOf g = .win ∧ blackCatOf g = .win →
        winnerFields g = whiteFields g)
      ∧ (whiteCatOf g = .loss ∧ blackCatOf g = .loss →
        loserFields g = whiteFields g)
      ∧ (winnerSideOf g = some .black → whiteCatOf g ≠ .win)
      ∧ (loserSideOf g = some .black → whiteCatOf g ≠ .loss) := by
  intro g
  refine ⟨?_, ?_, ?_, ?_⟩
  · rintro ⟨hw, _⟩
    have hwin : winnerOf g = some (whiteOf g) := by
      simp [winnerOf, winnerSideOf, hw]
    simp only [winnerFields, whiteFields, hwin, Option.some_bind,
      truthy_profileUrl]
  · rintro ⟨hw, _⟩
    have hlos : loserOf g = some (whiteOf g) := by
      simp [loserOf, loserSideOf, hw]
    simp only [loserFields, whiteFields, hlos, Option.some_bind,
      truthy_profileUrl]
  · intro h hw
    simp [winnerSideOf, hw] at h
  · intro h hw
    simp [loserSideOf, hw] at h

/-- C10 (witness): at `gBothWin` (both sides "win") the winner fields equal the
white fields; at `gBothLoss` (both sides losing codes) the loser fields equal
the white fields. -/
theorem c10_winner_loser_white_first_witness :
    winnerFields gBothWin = whiteFields gBothWin ∧
    loserFields gBothLoss = whiteFields gBothLoss :=
  ⟨(c10_winner_loser_white_first gBothWin).1 ⟨by decide, by decide⟩,
   (c10_winner_loser_white_first gBothLoss).2.1 ⟨by decide, by decide⟩⟩

end LastChess
